import Mathlib

/-!
# Verification of the decision-tree classifier (`src/tree.py`)

Shallow embedding of the core of `tree.py`: the tree data model
(`Node`/`Leaf`, here the inductive `Tree`), classification
(`Node.classify` / `Leaf.classify`), and the nested helpers of
`learn_decision_tree` (`decision_tree_learning`, `split`, `argmax`,
`same_classification`, `plurality_value`, `entropy`, `information_gain`).

Conventions of the embedding:
* an example (a CSV row) is a `List String`; `target` is the index of the
  target attribute, as computed by `learn_decision_tree`;
* Python's `row[i]` is modelled as `List.getD i ""` where the induction
  algorithm only ever uses in-range indices, and as `List.get? i` in
  `classify`, whose failure behaviour is part of the claims;
* Python's `dict` of children is an association list (keys are never
  added twice by the induction algorithm);
* Python floats are modelled as real numbers, so `entropy` and everything
  that depends on it is noncomputable; `math.log(x, 2)` is `Real.logb 2 x`;
* Python's `ZeroDivisionError` in `entropy` has no counterpart: real
  division by zero is total in Lean.  The claim about that error is
  settled by instrumenting the algorithm with the list of argument sets
  that `entropy` is applied to (`entropyArgsLearn`) and proving that all
  of them are non-empty.
-/

namespace DecisionTree

/-- A row of the dataset: one categorical string value per attribute. -/
abbrev Example := List String

/-- The tree model: `Leaf(pred_class)` and `Node(test_attr, test_name)`
with its `children` dictionary, modelled as an association list. -/
inductive Tree where
  | leaf (pred_class : String)
  | node (test_attr : Nat) (test_name : String) (children : List (String × Tree))

/-- Lookup of `children[val]` in a `Node`'s dictionary: `none` models
Python's `KeyError`. -/
def lookupChild (val : String) : List (String × Tree) → Option Tree
  | [] => none
  | (k, t) :: rest => if k = val then some t else lookupChild val rest

mutual

/-- `Node.classify` / `Leaf.classify`: a leaf returns its class; a node
looks up `example[self.test_attr]` in `self.children` and recurses.
`none` models an uncaught `IndexError`/`KeyError`. -/
def Tree.classify : Tree → Example → Option String
  | .leaf c, _ => some c
  | .node a _ ch, e =>
    match e.get? a with
    | none => none
    | some v => classifyIn ch v e

/-- The dictionary lookup of `Tree.classify`, fused with the recursive
call on the subtree found. -/
def classifyIn : List (String × Tree) → String → Example → Option String
  | [], _, _ => none
  | (k, t) :: rest, v, e => if k = v then Tree.classify t e else classifyIn rest v e

end

mutual

/-- Instrumentation of `classify`: `true` iff the walk reaches a decision
node whose children dictionary has no entry for the example's value at the
tested attribute (Python's `KeyError`). -/
def lookupFails : Tree → Example → Bool
  | .leaf _, _ => false
  | .node a _ ch, e =>
    match e.get? a with
    | none => false
    | some v => lookupFailsIn ch v e

/-- Helper of `lookupFails` walking the children dictionary. -/
def lookupFailsIn : List (String × Tree) → String → Example → Bool
  | [], _, _ => true
  | (k, t) :: rest, v, e => if k = v then lookupFails t e else lookupFailsIn rest v e

end

mutual

/-- Structural invariant: every decision node of the tree has children
under exactly the outcome labels `"Yea"` and `"Nay"`, in that order. -/
def goodTree : Tree → Bool
  | .leaf _ => true
  | .node _ _ ch => decide (ch.map Prod.fst = ["Yea", "Nay"]) && goodForest ch

/-- `goodTree` over a children list. -/
def goodForest : List (String × Tree) → Bool
  | [] => true
  | (_, t) :: rest => goodTree t && goodForest rest

end

mutual

/-- Every `test_attr` in the tree is a valid index into an example of the
given length (rules out Python's `IndexError` during classification). -/
def attrsInRange : Tree → Nat → Bool
  | .leaf _, _ => true
  | .node a _ ch, n => decide (a < n) && forestInRange ch n

/-- `attrsInRange` over a children list. -/
def forestInRange : List (String × Tree) → Nat → Bool
  | [], _ => true
  | (_, t) :: rest, n => attrsInRange t n && forestInRange rest n

end

/-- Python's `str.lower()`, modelled as per-character lowercasing (the
dataset's vocabulary is ASCII, where the two agree). -/
def pyLower (s : String) : String := String.mk (s.data.map Char.toLower)

/-- The count of examples whose target value satisfies
`exs[target].lower() == "republican"`: the loop shared by
`same_classification`, `plurality_value` and `entropy`. -/
def repCount (target : Nat) (examples : List Example) : Nat :=
  (examples.filter (fun exs => pyLower (exs.getD target "") == "republican")).length

/-- The count of the remaining examples (the `else: democrats += 1` branch
of the same loop). -/
def demCount (target : Nat) (examples : List Example) : Nat :=
  (examples.filter (fun exs => !(pyLower (exs.getD target "") == "republican"))).length

/-- `plurality_value(examples)`:
`Leaf("Democrats") if democrats >= republicans else Leaf("Republicans")`. -/
def plurality_value (target : Nat) (examples : List Example) : Tree :=
  if repCount target examples ≤ demCount target examples then Tree.leaf "Democrats"
  else Tree.leaf "Republicans"

/-- `same_classification(examples)`: `some` of a pure leaf when one of the
two binarized counts is zero, `none` otherwise (Python's `None`). -/
def same_classification (target : Nat) (examples : List Example) : Option Tree :=
  if repCount target examples = 0 then some (Tree.leaf "Democrats")
  else if demCount target examples = 0 then some (Tree.leaf "Republicans")
  else none

/-- `split(attribute, examples)`: the pair `[yes_examples, no_examples]`,
where an example is a yes-example iff its value at `attribute` is `"Yea"`
or `"Present"`; appending in a Python loop preserves the input order, so
each group is a `List.filter`. -/
def split (attr : Nat) (examples : List Example) : List (List Example) :=
  [examples.filter (fun exs =>
      exs.getD attr "" == "Yea" || exs.getD attr "" == "Present"),
   examples.filter (fun exs =>
      !(exs.getD attr "" == "Yea" || exs.getD attr "" == "Present"))]

/-- The arithmetic core of `entropy` on the two counts produced by its
counting loop: `total = republicans + democrats`, the two relative
frequencies, and `-p_democrats*log2(p_democrats) - p_republicans*log2(p_republicans)`
with each logarithm guarded by an `if p != 0` exactly as in the source. -/
noncomputable def entropyCounts (republicansN democratsN : Nat) : ℝ :=
  let republicans : ℝ := republicansN
  let democrats : ℝ := democratsN
  let total : ℝ := republicans + democrats
  let p_republicans : ℝ := republicans / total
  let p_democrats : ℝ := democrats / total
  let log_dems : ℝ := if p_democrats ≠ 0 then Real.logb 2 p_democrats else 0
  let log_reps : ℝ := if p_republicans ≠ 0 then Real.logb 2 p_republicans else 0
  let result : ℝ := -p_democrats * log_dems - p_republicans * log_reps
  result

/-- `entropy(examples)`: the counting loop followed by the entropy formula.
(The Python code divides by `total`; on an empty example list it would raise
`ZeroDivisionError`, whereas real division by zero yields `0` here — the
claim that this situation is unreachable is handled via `entropyArgsLearn`.) -/
noncomputable def entropy (target : Nat) (examples : List Example) : ℝ :=
  entropyCounts (repCount target examples) (demCount target examples)

/-- `information_gain(parent, children)`: subtracts from `entropy(parent)`
the length-weighted entropies of the non-empty children (`len(child) == 0`
children are skipped by a `continue`). -/
noncomputable def information_gain (target : Nat) (parent : List Example)
    (children : List (List Example)) : ℝ :=
  let e_children := children.foldl
    (fun acc child =>
      if child.length = 0 then acc
      else acc + (child.length : ℝ) / (parent.length : ℝ) * entropy target child) 0
  entropy target parent - e_children

/-- Python's `max` on a list of floats (defined on non-empty lists; the
`[]` case is junk, matching `max([])` raising `ValueError`). -/
noncomputable def listMax : List ℝ → ℝ
  | [] => 0
  | x :: xs => xs.foldl max x

open Classical in
/-- Python's `list.index(x)`: the index of the first occurrence of `x`
(the out-of-list case is junk, matching `index` raising `ValueError`). -/
noncomputable def idxOfFirst (x : ℝ) : List ℝ → Nat
  | [] => 0
  | y :: ys => if y = x then 0 else idxOfFirst x ys + 1

/-- `argmax(attributes, examples)`: the attribute whose split of `examples`
has the greatest information gain, the first one in `attributes` on ties
(`entropy_attr.index(max(entropy_attr))`). -/
noncomputable def argmax (target : Nat) (attributes : List Nat)
    (examples : List Example) : Nat :=
  let entropy_attr := attributes.map
    (fun a => information_gain target examples (split a examples))
  attributes.getD (idxOfFirst (listMax entropy_attr) entropy_attr) 0

theorem foldl_max_mem (xs : List ℝ) (x : ℝ) : xs.foldl max x ∈ x :: xs := by
  induction xs generalizing x with
  | nil => simp
  | cons y ys ih =>
    rw [List.foldl_cons]
    rcases List.mem_cons.1 (ih (max x y)) with h | h
    · rcases max_choice x y with h' | h' <;> rw [h, h']
      · exact List.mem_cons_self _ _
      · exact List.mem_cons_of_mem _ (List.mem_cons_self _ _)
    · exact List.mem_cons_of_mem _ (List.mem_cons_of_mem _ h)

theorem listMax_mem {l : List ℝ} (h : l ≠ []) : listMax l ∈ l := by
  match l with
  | x :: xs => simpa [listMax] using foldl_max_mem xs x

open Classical in
theorem idxOfFirst_lt_length {x : ℝ} {l : List ℝ} (h : x ∈ l) :
    idxOfFirst x l < l.length := by
  induction l with
  | nil => simp at h
  | cons y ys ih =>
    by_cases hyx : y = x
    · simp [idxOfFirst, hyx]
    · rcases List.mem_cons.1 h with h' | h'
      · exact absurd h'.symm hyx
      · simpa [idxOfFirst, hyx] using ih h'

/-- The attribute chosen by `argmax` is one of the candidates: the fact
that makes the recursion of `decision_tree_learning` terminate. -/
theorem argmax_mem (target : Nat) {attributes : List Nat} (examples : List Example)
    (h : attributes ≠ []) : argmax target attributes examples ∈ attributes := by
  unfold argmax
  set entropy_attr := attributes.map
    (fun a => information_gain target examples (split a examples)) with hea
  have hne : entropy_attr ≠ [] := by
    simpa [hea] using h
  have hlt : idxOfFirst (listMax entropy_attr) entropy_attr < entropy_attr.length :=
    idxOfFirst_lt_length (listMax_mem hne)
  have hlt' : idxOfFirst (listMax entropy_attr) entropy_attr < attributes.length := by
    simpa [hea] using hlt
  rw [List.getD_eq_getElem attributes 0 hlt']
  exact List.getElem_mem hlt'

/-- The `f"vote{A}"` display name of a decision node. -/
def voteName (a : Nat) : String := "vote" ++ toString a

/-- `decision_tree_learning(examples, attrs, parent_examples, depth)`:
the pseudocode of Russell–Norvig with a depth argument, transcribed from
the source: depth test first, then the empty-examples, pure-classification
and empty-attributes base cases, otherwise a decision node on
`A = argmax(attrs, examples)` whose `"Yea"` child is learned from
`split(A, examples)[0]` and whose `"Nay"` child from `split(A, examples)[1]`,
both with `attrs` minus `A` and `depth - 1`.  `depth` is an integer exactly
as in Python, where a negative depth never equals `0`. -/
noncomputable def decision_tree_learning (target : Nat) (examples : List Example)
    (attrs : List Nat) (parent_examples : List Example) (depth : Int) : Tree :=
  if depth = 0 then plurality_value target examples
  else if examples.length = 0 then plurality_value target parent_examples
  else match same_classification target examples with
    | some tree => tree
    | none =>
      if h0 : attrs.length = 0 then plurality_value target examples
      else
        let A := argmax target attrs examples
        let temp_attrs := attrs.erase A
        let yea_subtree := decision_tree_learning target ((split A examples).getD 0 [])
          temp_attrs examples (depth - 1)
        let nay_subtree := decision_tree_learning target ((split A examples).getD 1 [])
          temp_attrs examples (depth - 1)
        Tree.node A (voteName A) [("Yea", yea_subtree), ("Nay", nay_subtree)]
termination_by attrs.length
decreasing_by
  all_goals
    have hmem : argmax target attrs examples ∈ attrs :=
      argmax_mem target examples (by simpa using List.length_pos.1 (Nat.pos_of_ne_zero h0))
  all_goals
    have := List.length_erase_of_mem hmem
    omega

/-- `decision_tree_learning` with an explicit bound on the recursion
depth: `none` when the bound is exhausted.  Used to state that the real
recursion terminates within `attrs.length + 1` nested calls for every
depth limit, including zero and negative ones. -/
noncomputable def dtl_fuel (target : Nat) (fuel : Nat) (examples : List Example)
    (attrs : List Nat) (parent_examples : List Example) (depth : Int) : Option Tree :=
  match fuel with
  | 0 => none
  | fuel + 1 =>
    if depth = 0 then some (plurality_value target examples)
    else if examples.length = 0 then some (plurality_value target parent_examples)
    else match same_classification target examples with
      | some tree => some tree
      | none =>
        if attrs.length = 0 then some (plurality_value target examples)
        else
          let A := argmax target attrs examples
          let temp_attrs := attrs.erase A
          match dtl_fuel target fuel ((split A examples).getD 0 []) temp_attrs examples (depth - 1),
                dtl_fuel target fuel ((split A examples).getD 1 []) temp_attrs examples (depth - 1) with
          | some yea_subtree, some nay_subtree =>
              some (Tree.node A (voteName A) [("Yea", yea_subtree), ("Nay", nay_subtree)])
          | _, _ => none

/-- The predicted class of a leaf (junk on a decision node). -/
def leafClassOf : Tree → String
  | .leaf c => c
  | .node _ _ _ => ""

/-- The class of the leaf that a given example's partition reaches during
induction: the recursion of `decision_tree_learning`, descending only into
the partition of `split(A, examples)` that contains `e` (index `0` exactly
when `e[A]` is `"Yea"` or `"Present"`, matching `split`). -/
noncomputable def routeClass (target : Nat) (examples : List Example)
    (attrs : List Nat) (parent_examples : List Example) (depth : Int)
    (e : Example) : String :=
  if depth = 0 then leafClassOf (plurality_value target examples)
  else if examples.length = 0 then leafClassOf (plurality_value target parent_examples)
  else match same_classification target examples with
    | some tree => leafClassOf tree
    | none =>
      if h0 : attrs.length = 0 then leafClassOf (plurality_value target examples)
      else
        let A := argmax target attrs examples
        if e.getD A "" == "Yea" || e.getD A "" == "Present" then
          routeClass target ((split A examples).getD 0 []) (attrs.erase A) examples
            (depth - 1) e
        else
          routeClass target ((split A examples).getD 1 []) (attrs.erase A) examples
            (depth - 1) e
termination_by attrs.length
decreasing_by
  all_goals
    have hmem : argmax target attrs examples ∈ attrs :=
      argmax_mem target examples (by simpa using List.length_pos.1 (Nat.pos_of_ne_zero h0))
  all_goals
    have := List.length_erase_of_mem hmem
    omega

/-- The argument lists that one call of `information_gain(parent, children)`
passes to `entropy`: the children not skipped by the `len(child) == 0`
test, and `parent` itself. -/
def entropyArgsIG (parent : List Example) (children : List (List Example)) :
    List (List Example) :=
  (children.filter (fun c => !(c.length == 0))) ++ [parent]

/-- The argument lists passed to `entropy` by one call of
`argmax(attributes, examples)`, which evaluates
`information_gain(examples, split(attribute, examples))` per candidate. -/
def entropyArgsArgmax (attributes : List Nat) (examples : List Example) :
    List (List Example) :=
  (attributes.map (fun a => entropyArgsIG examples (split a examples))).flatten

/-- Every argument list passed to `entropy` during a run of
`decision_tree_learning`: the base cases call only `plurality_value` /
`same_classification` (no entropy); the recursive case calls `argmax`
once and recurses into both partitions. -/
noncomputable def entropyArgsLearn (target : Nat) (examples : List Example)
    (attrs : List Nat) (parent_examples : List Example) (depth : Int) :
    List (List Example) :=
  if depth = 0 then []
  else if examples.length = 0 then []
  else match same_classification target examples with
    | some _ => []
    | none =>
      if h0 : attrs.length = 0 then []
      else
        let A := argmax target attrs examples
        entropyArgsArgmax attrs examples
          ++ entropyArgsLearn target ((split A examples).getD 0 []) (attrs.erase A)
              examples (depth - 1)
          ++ entropyArgsLearn target ((split A examples).getD 1 []) (attrs.erase A)
              examples (depth - 1)
termination_by attrs.length
decreasing_by
  all_goals
    have hmem : argmax target attrs examples ∈ attrs :=
      argmax_mem target examples (by simpa using List.length_pos.1 (Nat.pos_of_ne_zero h0))
  all_goals
    have := List.length_erase_of_mem hmem
    omega

/-! ## Generic helper lemmas -/

theorem length_filter_add_length_filter_not {α : Type} (l : List α) (p : α → Bool) :
    (l.filter p).length + (l.filter (fun a => !p a)).length = l.length := by
  induction l with
  | nil => rfl
  | cons x xs ih => by_cases h : p x <;> simp [List.filter_cons, h] <;> omega

theorem length_filter_partition {α : Type} (l : List α) (p q : α → Bool) :
    ((l.filter p).filter q).length + ((l.filter (fun a => !p a)).filter q).length
      = (l.filter q).length := by
  induction l with
  | nil => rfl
  | cons x xs ih =>
    rcases Bool.eq_false_or_eq_true (p x) with hp | hp <;>
      rcases Bool.eq_false_or_eq_true (q x) with hq | hq <;>
        simp only [List.filter_cons, hp, hq, Bool.not_true, Bool.not_false,
          Bool.false_eq_true, eq_self_iff_true, if_true, if_false,
          List.length_cons] <;> omega

/-- `plurality_value` always returns a leaf. -/
theorem plurality_value_leaf (target : Nat) (examples : List Example) :
    ∃ c, plurality_value target examples = Tree.leaf c := by
  unfold plurality_value
  split <;> exact ⟨_, rfl⟩

/-- Whatever `same_classification` returns is a leaf. -/
theorem same_classification_leaf {target : Nat} {examples : List Example} {tr : Tree}
    (h : same_classification target examples = some tr) : ∃ c, tr = Tree.leaf c := by
  unfold same_classification at h
  split at h
  · exact ⟨_, (Option.some_injective _ h).symm⟩
  · split at h
    · exact ⟨_, (Option.some_injective _ h).symm⟩
    · cases h

/-! ## C2: depth limit zero -/

/-- C2: in `decision_tree_learning` the `depth == 0` test comes before the
empty-examples test, so at depth limit `0` the call returns
`plurality_value(examples)` — a leaf, never a decision node — for every
example set (empty or not), every candidate-attribute list and every
parent set. -/
theorem c2_depth_zero_plurality (target : Nat) (examples : List Example)
    (attrs : List Nat) (parent_examples : List Example) :
    decision_tree_learning target examples attrs parent_examples 0
      = plurality_value target examples ∧
    ∃ c, decision_tree_learning target examples attrs parent_examples 0
      = Tree.leaf c := by
  have h : decision_tree_learning target examples attrs parent_examples 0
      = plurality_value target examples := by
    rw [decision_tree_learning]
    simp
  exact ⟨h, by rw [h]; exact plurality_value_leaf target examples⟩

/-! ## C6: plurality tie policy -/

/-- C6: `plurality_value` returns `Leaf("Democrats")` whenever the two
binarized class counts are equal (in particular on the empty list, where
both are `0`), and the leaf of the strictly more frequent class
otherwise. -/
theorem c6_plurality_tie_policy (target : Nat) (examples : List Example) :
    (repCount target examples = demCount target examples →
      plurality_value target examples = Tree.leaf "Democrats") ∧
    (repCount target examples < demCount target examples →
      plurality_value target examples = Tree.leaf "Democrats") ∧
    (demCount target examples < repCount target examples →
      plurality_value target examples = Tree.leaf "Republicans") := by
  unfold plurality_value
  refine ⟨fun h => ?_, fun h => ?_, fun h => ?_⟩
  · rw [if_pos (le_of_eq h)]
  · rw [if_pos h.le]
  · rw [if_neg (not_le.2 h)]

theorem c6_plurality_witness :
    plurality_value 0 [] = Tree.leaf "Democrats" :=
  (c6_plurality_tie_policy 0 []).1 rfl

/-! ## C7: the split -/

/-- C7: `split` returns the pair `[yesGroup, noGroup]` in that order,
`yesGroup` being exactly the input examples (in input order, hence a
sublist) whose value at the attribute is `"Yea"` or `"Present"`, `noGroup`
exactly the others; the two sizes add up to the input size, and on the
values `["Yea"], ["Present"], ["Nay"], ["Absent"]` both groups have
size 2. -/
theorem c7_split_partition (attr : Nat) (examples : List Example) :
    ∃ yes no,
      split attr examples = [yes, no] ∧
      yes = examples.filter (fun exs =>
        exs.getD attr "" == "Yea" || exs.getD attr "" == "Present") ∧
      no = examples.filter (fun exs =>
        !(exs.getD attr "" == "Yea" || exs.getD attr "" == "Present")) ∧
      yes.Sublist examples ∧ no.Sublist examples ∧
      yes.length + no.length = examples.length ∧
      (split 0 [["Yea"], ["Present"], ["Nay"], ["Absent"]]).map List.length
        = [2, 2] := by
  refine ⟨_, _, rfl, rfl, rfl, List.filter_sublist _, List.filter_sublist _, ?_, rfl⟩
  exact length_filter_add_length_filter_not examples _

/-! ## C5: classification -/

/-- `classifyIn` is the dictionary lookup followed by recursion on the
subtree found. -/
theorem classifyIn_eq (ch : List (String × Tree)) (v : String) (e : Example) :
    classifyIn ch v e = (lookupChild v ch).bind (fun sub => Tree.classify sub e) := by
  induction ch with
  | nil => rfl
  | cons p rest ih =>
    obtain ⟨k, t⟩ := p
    by_cases h : k = v <;> simp [classifyIn, lookupChild, h, ih]

/-- A dictionary lookup fails exactly when the value is none of the keys. -/
theorem lookupChild_none_iff (v : String) (ch : List (String × Tree)) :
    lookupChild v ch = none ↔ v ∉ ch.map Prod.fst := by
  induction ch with
  | nil => simp [lookupChild]
  | cons p rest ih =>
    obtain ⟨k, t⟩ := p
    by_cases h : k = v
    · subst h
      simp [lookupChild]
    · have h' : v ≠ k := fun hv => h hv.symm
      rw [lookupChild, if_neg h, ih]
      simp [h']

/-- `lookupFailsIn` mirrors `classifyIn` like `lookupFails` mirrors
`Tree.classify`. -/
theorem classifyIn_isNone_aux :
    ∀ (n : Nat) (t : Tree) (e : Example), sizeOf t ≤ n →
      attrsInRange t e.length = true →
      (Tree.classify t e).isNone = lookupFails t e := by
  intro n
  induction n with
  | zero =>
    intro t e hle
    exfalso
    cases t <;> simp_arith at hle
  | succ n ih =>
    intro t e hle hr
    match t with
    | .leaf c => simp [Tree.classify, lookupFails]
    | .node a nm ch =>
      have hsize : sizeOf ch + 1 ≤ sizeOf (Tree.node a nm ch) := by
        simp_arith
      rw [attrsInRange] at hr
      rw [Bool.and_eq_true] at hr
      obtain ⟨hlt, hfr⟩ := hr
      have hlt' : a < e.length := of_decide_eq_true hlt
      obtain ⟨v, hv⟩ : ∃ v, e.get? a = some v := by
        cases hg : e.get? a with
        | none =>
          exfalso
          have := List.get?_eq_none.1 hg
          omega
        | some v => exact ⟨v, rfl⟩
      rw [Tree.classify, lookupFails, hv]
      have hchain : sizeOf ch ≤ n := by
        have := hsize
        simp_arith at this ⊢
        omega
      clear hv hlt hlt' hsize hle
      induction ch with
      | nil => rfl
      | cons p rest ihch =>
        obtain ⟨k, t'⟩ := p
        rw [forestInRange, Bool.and_eq_true] at hfr
        obtain ⟨hat, hfr'⟩ := hfr
        have hsz : sizeOf t' ≤ n ∧ sizeOf rest ≤ n := by
          have h1 : sizeOf ((k, t') :: rest) = 1 + (1 + sizeOf k + sizeOf t') + sizeOf rest := by
            simp_arith
          omega
        show ((if k = v then Tree.classify t' e else classifyIn rest v e).isNone
          = if k = v then lookupFails t' e else lookupFailsIn rest v e)
        by_cases hk : k = v
        · rw [if_pos hk, if_pos hk]
          exact ih t' e hsz.1 hat
        · rw [if_neg hk, if_neg hk]
          exact ihch hfr' hsz.2

/-- C5: `classify` on a leaf returns the leaf's class; on a decision node
it looks the example's value at the tested attribute up in the children
mapping and recurses on the subtree found; whenever every tested attribute
is in range, classification fails (`none`, never an arbitrary class)
exactly when the walk reaches a node whose outcome labels do not include
the example's value — a dictionary lookup failing exactly when the value is
none of its keys. -/
theorem c5_classify_spec (t : Tree) (e : Example)
    (h : attrsInRange t e.length = true) :
    (∀ c, Tree.classify (Tree.leaf c) e = some c) ∧
    (∀ a nm ch, Tree.classify (Tree.node a nm ch) e
      = (e.get? a).bind (fun v =>
          (lookupChild v ch).bind (fun sub => Tree.classify sub e))) ∧
    (∀ (v : String) (ch : List (String × Tree)),
      lookupChild v ch = none ↔ v ∉ ch.map Prod.fst) ∧
    (Tree.classify t e).isNone = lookupFails t e := by
  refine ⟨fun c => rfl, fun a nm ch => ?_, lookupChild_none_iff, ?_⟩
  · rw [Tree.classify]
    cases e.get? a with
    | none => rfl
    | some v => simpa using classifyIn_eq ch v e
  · exact classifyIn_isNone_aux (sizeOf t) t e le_rfl h

theorem c5_classify_witness :
    (Tree.classify (Tree.node 0 "vote0" [("Yea", Tree.leaf "Republicans")])
        ["Nay"]).isNone
      = lookupFails (Tree.node 0 "vote0" [("Yea", Tree.leaf "Republicans")])
        ["Nay"] :=
  (c5_classify_spec (Tree.node 0 "vote0" [("Yea", Tree.leaf "Republicans")])
    ["Nay"] (by decide)).2.2.2

/-! ## C4: every decision node has exactly the two children -/

theorem goodTree_plurality (target : Nat) (examples : List Example) :
    goodTree (plurality_value target examples) = true := by
  obtain ⟨c, hc⟩ := plurality_value_leaf target examples
  rw [hc]
  rfl

theorem goodTree_node2 (A : Nat) (nm : String) (t1 t2 : Tree)
    (h1 : goodTree t1 = true) (h2 : goodTree t2 = true) :
    goodTree (Tree.node A nm [("Yea", t1), ("Nay", t2)]) = true := by
  simp [goodTree, goodForest, h1, h2]

theorem c4_aux : ∀ (n : Nat) (target : Nat) (examples : List Example)
    (attrs : List Nat) (parent : List Example) (depth : Int), attrs.length ≤ n →
    goodTree (decision_tree_learning target examples attrs parent depth) = true := by
  intro n
  induction n with
  | zero =>
    intro target examples attrs parent depth hle
    rw [decision_tree_learning]
    split
    · exact goodTree_plurality _ _
    split
    · exact goodTree_plurality _ _
    split
    · next tr htr =>
      obtain ⟨c, rfl⟩ := same_classification_leaf htr
      rfl
    split
    · exact goodTree_plurality _ _
    · next h0 =>
      exact absurd (Nat.le_zero.1 hle) h0
  | succ n ih =>
    intro target examples attrs parent depth hle
    rw [decision_tree_learning]
    split
    · exact goodTree_plurality _ _
    split
    · exact goodTree_plurality _ _
    split
    · next tr htr =>
      obtain ⟨c, rfl⟩ := same_classification_leaf htr
      rfl
    split
    · exact goodTree_plurality _ _
    · next h0 =>
      have hmem : argmax target attrs examples ∈ attrs :=
        argmax_mem target examples
          (by simpa using List.length_pos.1 (Nat.pos_of_ne_zero h0))
      have herase := List.length_erase_of_mem hmem
      have h1 : (attrs.erase (argmax target attrs examples)).length ≤ n := by omega
      exact goodTree_node2 _ _ _ _ (ih target _ _ examples (depth - 1) h1)
        (ih target _ _ examples (depth - 1) h1)

/-- C4: every decision node of a tree returned by the induction algorithm
carries exactly two children, one under `"Yea"` and one under `"Nay"`, both
present in the returned (hence fully built) tree — including when one of
the two split partitions is empty, since the algorithm attaches a subtree
for both indices `0` and `1` of the split unconditionally. -/
theorem c4_two_children_invariant (target : Nat) (examples : List Example)
    (attrs : List Nat) (parent_examples : List Example) (depth : Int) :
    goodTree (decision_tree_learning target examples attrs parent_examples depth)
      = true :=
  c4_aux attrs.length target examples attrs parent_examples depth le_rfl

/-! ## C10: termination -/

theorem c10_aux : ∀ (fuel : Nat) (target : Nat) (examples : List Example)
    (attrs : List Nat) (parent : List Example) (depth : Int), attrs.length < fuel →
    dtl_fuel target fuel examples attrs parent depth
      = some (decision_tree_learning target examples attrs parent depth) := by
  intro fuel
  induction fuel with
  | zero =>
    intro _ _ _ _ _ h
    omega
  | succ fuel ih =>
    intro target examples attrs parent depth hlt
    rw [decision_tree_learning, dtl_fuel]
    split
    · rfl
    split
    · rfl
    split
    · rfl
    by_cases h0 : attrs.length = 0
    · rw [if_pos h0, dif_pos h0]
    · rw [if_neg h0, dif_neg h0]
      have hmem : argmax target attrs examples ∈ attrs :=
        argmax_mem target examples
          (by simpa using List.length_pos.1 (Nat.pos_of_ne_zero h0))
      have herase := List.length_erase_of_mem hmem
      have e1 := ih target ((split (argmax target attrs examples) examples).getD 0 [])
        (attrs.erase (argmax target attrs examples)) examples (depth - 1) (by omega)
      have e2 := ih target ((split (argmax target attrs examples) examples).getD 1 [])
        (attrs.erase (argmax target attrs examples)) examples (depth - 1) (by omega)
      simp only [e1, e2]

/-- C10: `decision_tree_learning` terminates on every input — the bounded
recursion `dtl_fuel` already succeeds with `attrs.length + 1` nested calls
(any bound above `attrs.length` works), for every example set and every
depth limit including zero and negative ones, because each recursive call
removes the chosen attribute from the candidate list. -/
theorem c10_termination (target : Nat) (examples : List Example)
    (attrs : List Nat) (parent_examples : List Example) (depth : Int)
    (fuel : Nat) (hfuel : attrs.length < fuel) :
    dtl_fuel target fuel examples attrs parent_examples depth
      = some (decision_tree_learning target examples attrs parent_examples depth) :=
  c10_aux fuel target examples attrs parent_examples depth hfuel

theorem c10_termination_witness :
    dtl_fuel 0 1 [] [] [] 5 = some (decision_tree_learning 0 [] [] [] 5) :=
  c10_termination 0 [] [] [] 5 1 (by decide)

/-! ## C9: entropy is only applied to non-empty example lists -/

theorem entropyArgsArgmax_all (attrs : List Nat) (examples : List Example)
    (h : examples ≠ []) :
    (entropyArgsArgmax attrs examples).all (fun l => !l.isEmpty) = true := by
  rw [List.all_eq_true]
  intro l hl
  rw [entropyArgsArgmax, List.mem_flatten] at hl
  obtain ⟨sub, hsub, hlsub⟩ := hl
  rw [List.mem_map] at hsub
  obtain ⟨a, _, rfl⟩ := hsub
  rw [entropyArgsIG, List.mem_append] at hlsub
  rcases hlsub with hmem | hmem
  · have hpred := (List.mem_filter.1 hmem).2
    have : l ≠ [] := by
      intro hnil
      subst hnil
      simp at hpred
    simpa [List.isEmpty_iff] using this
  · have : l = examples := by simpa using hmem
    subst this
    simpa [List.isEmpty_iff] using h

theorem c9_aux : ∀ (n : Nat) (target : Nat) (examples : List Example)
    (attrs : List Nat) (parent : List Example) (depth : Int), attrs.length ≤ n →
    (entropyArgsLearn target examples attrs parent depth).all
      (fun l => !l.isEmpty) = true := by
  intro n
  induction n with
  | zero =>
    intro target examples attrs parent depth hle
    rw [entropyArgsLearn]
    split
    · rfl
    split
    · rfl
    split
    · rfl
    split
    · rfl
    · next h0 =>
      exact absurd (Nat.le_zero.1 hle) h0
  | succ n ih =>
    intro target examples attrs parent depth hle
    rw [entropyArgsLearn]
    split
    · rfl
    · next hd =>
      split
      · rfl
      · next hlen =>
        split
        · rfl
        split
        · rfl
        · next h0 =>
          have hmem : argmax target attrs examples ∈ attrs :=
            argmax_mem target examples
              (by simpa using List.length_pos.1 (Nat.pos_of_ne_zero h0))
          have herase := List.length_erase_of_mem hmem
          have hne : examples ≠ [] := by
            intro hnil
            rw [hnil] at hlen
            exact hlen rfl
          rw [List.all_append, List.all_append]
          rw [entropyArgsArgmax_all attrs examples hne,
            ih target _ _ examples (depth - 1) (by omega),
            ih target _ _ examples (depth - 1) (by omega)]
          rfl

/-- C9: during any run of `decision_tree_learning`, `entropy` is applied
only to non-empty example lists — every element of the instrumentation
`entropyArgsLearn`, which records the argument of each `entropy` call
(the parent and the non-skipped children of every `information_gain`
evaluation made through `argmax`), is non-empty — and the divisor
`total = republicans + democrats` of `entropy` is exactly the length of
its argument, so the division is never by zero. -/
theorem c9_entropy_nonempty_args (target : Nat) (examples : List Example)
    (attrs : List Nat) (parent_examples : List Example) (depth : Int) :
    ((entropyArgsLearn target examples attrs parent_examples depth).all
      (fun l => !l.isEmpty) = true) ∧
    (∀ l : List Example, repCount target l + demCount target l = l.length) :=
  ⟨c9_aux attrs.length target examples attrs parent_examples depth le_rfl,
   fun l => length_filter_add_length_filter_not l _⟩

/-! ## C1: round trip between induction and classification -/

/-- On a single candidate attribute `argmax` returns that attribute,
whatever its information gain evaluates to. -/
theorem argmax_singleton (target a : Nat) (exs : List Example) :
    argmax target [a] exs = a := by
  simp [argmax, listMax, idxOfFirst]

/-- If the default is not returned, the index is in range and `get?`
agrees with `getD`. -/
theorem get?_of_getD_ne {e : Example} {a : Nat} (h : e.getD a "" ≠ "") :
    e.get? a = some (e.getD a "") := by
  rcases Nat.lt_or_ge a e.length with hlt | hge
  · rw [List.getD_eq_getElem _ _ hlt, List.get?_eq_getElem?,
      List.getElem?_eq_getElem hlt]
  · exact absurd (List.getD_eq_default _ _ hge) h

theorem c1_step_yea (A : Nat) (nm : String) (yt nt : Tree) (e : Example)
    (cy cn : String) (h : e.getD A "" = "Yea")
    (hget : e.get? A = some (e.getD A ""))
    (hy : Tree.classify yt e = some cy) :
    Tree.classify (Tree.node A nm [("Yea", yt), ("Nay", nt)]) e
      = some (if e.getD A "" == "Yea" || e.getD A "" == "Present" then cy
          else cn) := by
  have hcl : Tree.classify (Tree.node A nm [("Yea", yt), ("Nay", nt)]) e
      = Tree.classify yt e := by
    rw [Tree.classify, hget, h]
    show (if ("Yea" : String) = "Yea" then Tree.classify yt e
        else classifyIn [("Nay", nt)] "Yea" e) = Tree.classify yt e
    rw [if_pos rfl]
  rw [hcl, hy, h]
  simp

theorem c1_step_nay (A : Nat) (nm : String) (yt nt : Tree) (e : Example)
    (cy cn : String) (h : e.getD A "" = "Nay")
    (hget : e.get? A = some (e.getD A ""))
    (hn : Tree.classify nt e = some cn) :
    Tree.classify (Tree.node A nm [("Yea", yt), ("Nay", nt)]) e
      = some (if e.getD A "" == "Yea" || e.getD A "" == "Present" then cy
          else cn) := by
  have hcl : Tree.classify (Tree.node A nm [("Yea", yt), ("Nay", nt)]) e
      = Tree.classify nt e := by
    rw [Tree.classify, hget, h]
    show (if ("Yea" : String) = "Nay" then Tree.classify yt e
        else classifyIn [("Nay", nt)] "Nay" e) = Tree.classify nt e
    rw [if_neg (by decide)]
    show (if ("Nay" : String) = "Nay" then Tree.classify nt e
        else classifyIn [] "Nay" e) = Tree.classify nt e
    rw [if_pos rfl]
  rw [hcl, hn, h]
  simp

theorem c1_aux : ∀ (n : Nat) (target : Nat) (examples : List Example)
    (attrs : List Nat) (parent : List Example) (depth : Int) (e : Example),
    attrs.length ≤ n → e ∈ examples →
    (∀ a ∈ attrs, e.getD a "" = "Yea" ∨ e.getD a "" = "Nay") →
    Tree.classify (decision_tree_learning target examples attrs parent depth) e
      = some (routeClass target examples attrs parent depth e) := by
  intro n
  induction n with
  | zero =>
    intro target examples attrs parent depth e hle hmem hvals
    rw [decision_tree_learning, routeClass]
    by_cases hd : depth = 0
    · rw [if_pos hd, if_pos hd]
      obtain ⟨c, hc⟩ := plurality_value_leaf target examples
      rw [hc]
      rfl
    rw [if_neg hd, if_neg hd]
    by_cases hlen : examples.length = 0
    · exfalso
      rw [List.length_eq_zero.1 hlen] at hmem
      cases hmem
    rw [if_neg hlen, if_neg hlen]
    cases hsc : same_classification target examples with
    | some tr =>
      simp only [hsc]
      obtain ⟨c, rfl⟩ := same_classification_leaf hsc
      rfl
    | none =>
      simp only [hsc]
      by_cases h0 : attrs.length = 0
      · rw [dif_pos h0, dif_pos h0]
        obtain ⟨c, hc⟩ := plurality_value_leaf target examples
        rw [hc]
        rfl
      · exact absurd (Nat.le_zero.1 hle) h0
  | succ n ih =>
    intro target examples attrs parent depth e hle hmem hvals
    rw [decision_tree_learning, routeClass]
    by_cases hd : depth = 0
    · rw [if_pos hd, if_pos hd]
      obtain ⟨c, hc⟩ := plurality_value_leaf target examples
      rw [hc]
      rfl
    rw [if_neg hd, if_neg hd]
    by_cases hlen : examples.length = 0
    · exfalso
      rw [List.length_eq_zero.1 hlen] at hmem
      cases hmem
    rw [if_neg hlen, if_neg hlen]
    cases hsc : same_classification target examples with
    | some tr =>
      simp only [hsc]
      obtain ⟨c, rfl⟩ := same_classification_leaf hsc
      rfl
    | none =>
      simp only [hsc]
      by_cases h0 : attrs.length = 0
      · rw [dif_pos h0, dif_pos h0]
        obtain ⟨c, hc⟩ := plurality_value_leaf target examples
        rw [hc]
        rfl
      rw [dif_neg h0, dif_neg h0]
      have hmemA : argmax target attrs examples ∈ attrs :=
        argmax_mem target examples
          (by simpa using List.length_pos.1 (Nat.pos_of_ne_zero h0))
      have herase := List.length_erase_of_mem hmemA
      have hvals' : ∀ a ∈ attrs.erase (argmax target attrs examples),
          e.getD a "" = "Yea" ∨ e.getD a "" = "Nay" :=
        fun a ha => hvals a (List.mem_of_mem_erase ha)
      have hv := hvals (argmax target attrs examples) hmemA
      have hvne : e.getD (argmax target attrs examples) "" ≠ "" := by
        rcases hv with h | h <;> rw [h] <;> decide
      have hget := get?_of_getD_ne hvne
      rcases hv with hYea | hNay
      · have hmemYes : e ∈ (split (argmax target attrs examples) examples).getD 0 [] := by
          have hfil : (split (argmax target attrs examples) examples).getD 0 []
              = examples.filter (fun exs =>
                  exs.getD (argmax target attrs examples) "" == "Yea" ||
                  exs.getD (argmax target attrs examples) "" == "Present") := rfl
          rw [hfil]
          refine List.mem_filter.2 ⟨hmem, ?_⟩
          rw [hYea]
          rfl
        have hysub := ih target ((split (argmax target attrs examples) examples).getD 0 [])
          (attrs.erase (argmax target attrs examples)) examples (depth - 1) e
          (by omega) hmemYes hvals'
        exact c1_step_yea (argmax target attrs examples)
          (voteName (argmax target attrs examples)) _ _ e _ _ hYea hget hysub
      · have hmemNo : e ∈ (split (argmax target attrs examples) examples).getD 1 [] := by
          have hfil : (split (argmax target attrs examples) examples).getD 1 []
              = examples.filter (fun exs =>
                  !(exs.getD (argmax target attrs examples) "" == "Yea" ||
                    exs.getD (argmax target attrs examples) "" == "Present")) := rfl
          rw [hfil]
          refine List.mem_filter.2 ⟨hmem, ?_⟩
          rw [hNay]
          rfl
        have hnsub := ih target ((split (argmax target attrs examples) examples).getD 1 [])
          (attrs.erase (argmax target attrs examples)) examples (depth - 1) e
          (by omega) hmemNo hvals'
        exact c1_step_nay (argmax target attrs examples)
          (voteName (argmax target attrs examples)) _ _ e _ _ hNay hget hnsub

/-- C1 (amended): the round trip holds for every training example whose
values at the candidate attributes are among the outcome labels `"Yea"`
and `"Nay"`: classification of the induced tree then succeeds and follows
exactly the branch the example was routed to during training, returning
the class of the leaf reached by its partition (`routeClass`). -/
theorem c1_round_trip_on_seen_labels (target : Nat) (examples : List Example)
    (attrs : List Nat) (parent_examples : List Example) (depth : Int)
    (e : Example) (hmem : e ∈ examples)
    (hvals : ∀ a ∈ attrs, e.getD a "" = "Yea" ∨ e.getD a "" = "Nay") :
    Tree.classify (decision_tree_learning target examples attrs parent_examples depth) e
      = some (routeClass target examples attrs parent_examples depth e) :=
  c1_aux attrs.length target examples attrs parent_examples depth e le_rfl hmem hvals

theorem c1_round_trip_witness :
    Tree.classify (decision_tree_learning 1 [["Yea", "republican"]] [0] [] 1)
        ["Yea", "republican"]
      = some (routeClass 1 [["Yea", "republican"]] [0] [] 1 ["Yea", "republican"]) :=
  c1_round_trip_on_seen_labels 1 [["Yea", "republican"]] [0] [] 1
    ["Yea", "republican"] (by simp) (by decide)

theorem c1_sub_yes : decision_tree_learning 1 [["Present", "republican"]] []
    [["Present", "republican"], ["Nay", "democrat"]] 1 = Tree.leaf "Republicans" := by
  rw [decision_tree_learning]
  rw [if_neg (by norm_num : ¬(1 : Int) = 0)]
  rw [if_neg (by norm_num :
    ¬([["Present", "republican"]] : List Example).length = 0)]
  have hsc : same_classification 1 [["Present", "republican"]]
      = some (Tree.leaf "Republicans") := rfl
  simp only [hsc]

theorem c1_sub_no : decision_tree_learning 1 [["Nay", "democrat"]] []
    [["Present", "republican"], ["Nay", "democrat"]] 1 = Tree.leaf "Democrats" := by
  rw [decision_tree_learning]
  rw [if_neg (by norm_num : ¬(1 : Int) = 0)]
  rw [if_neg (by norm_num : ¬([["Nay", "democrat"]] : List Example).length = 0)]
  have hsc : same_classification 1 [["Nay", "democrat"]]
      = some (Tree.leaf "Democrats") := rfl
  simp only [hsc]

/-- The tree induced from the two-example dataset whose first example votes
`"Present"`: the `"Present"` voter is routed into the `"Yea"` partition. -/
theorem c1_tree_eval :
    decision_tree_learning 1 [["Present", "republican"], ["Nay", "democrat"]] [0] [] 2
      = Tree.node 0 "vote0"
          [("Yea", Tree.leaf "Republicans"), ("Nay", Tree.leaf "Democrats")] := by
  rw [decision_tree_learning]
  rw [if_neg (by norm_num : ¬(2 : Int) = 0)]
  rw [if_neg (by norm_num :
    ¬([["Present", "republican"], ["Nay", "democrat"]] : List Example).length = 0)]
  have hsc : same_classification 1 [["Present", "republican"], ["Nay", "democrat"]]
      = none := rfl
  simp only [hsc]
  rw [dif_neg (by norm_num : ¬([0] : List Nat).length = 0)]
  rw [argmax_singleton]
  have hs0 : (split 0 [["Present", "republican"], ["Nay", "democrat"]]).getD 0 []
      = [["Present", "republican"]] := rfl
  have hs1 : (split 0 [["Present", "republican"], ["Nay", "democrat"]]).getD 1 []
      = [["Nay", "democrat"]] := rfl
  have her : ([0] : List Nat).erase 0 = [] := rfl
  have hd : (2 : Int) - 1 = 1 := by norm_num
  simp only [hs0, hs1, her, hd, c1_sub_yes, c1_sub_no]
  rfl

/-- C1 (counterexample): the training example `["Present", "republican"]`
belongs to the training set, is routed into the `"Yea"` partition during
induction, yet classifying it with the induced tree fails with a lookup
error (`none`): `"Present"` is not an outcome label of the node. -/
theorem c1_round_trip_counterexample :
    (["Present", "republican"] :: [["Nay", "democrat"]]
        = [["Present", "republican"], ["Nay", "democrat"]]) ∧
    Tree.classify
        (decision_tree_learning 1 [["Present", "republican"], ["Nay", "democrat"]]
          [0] [] 2)
        ["Present", "republican"] = none := by
  refine ⟨rfl, ?_⟩
  rw [c1_tree_eval]
  rfl

/-! ## C3: the four-example, single-feature scenario

With the pairing given in the claim — `voteX` values
`["Yea", "Yea", "Nay", "Nay"]` against target values
`["republican", "democrat", "republican", "democrat"]` — each partition of
the split contains one republican and one democrat, so both children are
plurality (tie) leaves, not pure ones. -/

theorem c3_sub_yes (d : Int) :
    decision_tree_learning 1 [["Yea", "republican"], ["Yea", "democrat"]] []
      [["Yea", "republican"], ["Yea", "democrat"],
       ["Nay", "republican"], ["Nay", "democrat"]] d = Tree.leaf "Democrats" := by
  rw [decision_tree_learning]
  by_cases hd : d = 0
  · rw [if_pos hd]
    rfl
  · rw [if_neg hd]
    rw [if_neg (by norm_num :
      ¬([["Yea", "republican"], ["Yea", "democrat"]] : List Example).length = 0)]
    have hsc : same_classification 1 [["Yea", "republican"], ["Yea", "democrat"]]
        = none := rfl
    simp only [hsc]
    rw [dif_pos (show ([] : List Nat).length = 0 from rfl)]
    rfl

theorem c3_sub_nay (d : Int) :
    decision_tree_learning 1 [["Nay", "republican"], ["Nay", "democrat"]] []
      [["Yea", "republican"], ["Yea", "democrat"],
       ["Nay", "republican"], ["Nay", "democrat"]] d = Tree.leaf "Democrats" := by
  rw [decision_tree_learning]
  by_cases hd : d = 0
  · rw [if_pos hd]
    rfl
  · rw [if_neg hd]
    rw [if_neg (by norm_num :
      ¬([["Nay", "republican"], ["Nay", "democrat"]] : List Example).length = 0)]
    have hsc : same_classification 1 [["Nay", "republican"], ["Nay", "democrat"]]
        = none := rfl
    simp only [hsc]
    rw [dif_pos (show ([] : List Nat).length = 0 from rfl)]
    rfl

/-- The tree the algorithm actually induces on the claimed dataset, for
every depth limit of at least 1. -/
theorem c3_tree_eval (d : Int) (hd : 1 ≤ d) :
    decision_tree_learning 1
      [["Yea", "republican"], ["Yea", "democrat"],
       ["Nay", "republican"], ["Nay", "democrat"]] [0] [] d
      = Tree.node 0 "vote0"
          [("Yea", Tree.leaf "Democrats"), ("Nay", Tree.leaf "Democrats")] := by
  rw [decision_tree_learning]
  rw [if_neg (by omega : ¬d = 0)]
  rw [if_neg (by norm_num :
    ¬([["Yea", "republican"], ["Yea", "democrat"],
       ["Nay", "republican"], ["Nay", "democrat"]] : List Example).length = 0)]
  have hsc : same_classification 1
      [["Yea", "republican"], ["Yea", "democrat"],
       ["Nay", "republican"], ["Nay", "democrat"]] = none := rfl
  simp only [hsc]
  rw [dif_neg (by norm_num : ¬([0] : List Nat).length = 0)]
  rw [argmax_singleton]
  have hs0 : (split 0 [["Yea", "republican"], ["Yea", "democrat"],
      ["Nay", "republican"], ["Nay", "democrat"]]).getD 0 []
      = [["Yea", "republican"], ["Yea", "democrat"]] := rfl
  have hs1 : (split 0 [["Yea", "republican"], ["Yea", "democrat"],
      ["Nay", "republican"], ["Nay", "democrat"]]).getD 1 []
      = [["Nay", "republican"], ["Nay", "democrat"]] := rfl
  have her : ([0] : List Nat).erase 0 = [] := rfl
  simp only [hs0, hs1, her, c3_sub_yes, c3_sub_nay]
  rfl

/-- C3 (counterexample): on the claim's dataset, at depth limit 1, the
induced tree is not the claimed one — its `"Yea"` child is
`Leaf("Democrats")`, not `Leaf("Republicans")` (the claimed pairing is
uncorrelated: each partition holds one republican and one democrat). -/
theorem c3_single_feature_counterexample :
    decision_tree_learning 1
        [["Yea", "republican"], ["Yea", "democrat"],
         ["Nay", "republican"], ["Nay", "democrat"]] [0] [] 1
      ≠ Tree.node 0 "vote0"
          [("Yea", Tree.leaf "Republicans"), ("Nay", Tree.leaf "Democrats")] := by
  rw [c3_tree_eval 1 le_rfl]
  intro h
  simp at h

/-- C3 (amended): on the stated 4-example dataset with feature list
`[voteX]` and depth limit at least 1, induction produces a decision node
testing `voteX` whose `"Yea"` child and `"Nay"` child are both
`Leaf("Democrats")` — the tie leaves of the two mixed partitions. -/
theorem c3_single_feature_scenario (d : Int) (hd : 1 ≤ d) :
    decision_tree_learning 1
      [["Yea", "republican"], ["Yea", "democrat"],
       ["Nay", "republican"], ["Nay", "democrat"]] [0] [] d
      = Tree.node 0 "vote0"
          [("Yea", Tree.leaf "Democrats"), ("Nay", Tree.leaf "Democrats")] :=
  c3_tree_eval d hd

theorem c3_single_feature_witness :
    decision_tree_learning 1
      [["Yea", "republican"], ["Yea", "democrat"],
       ["Nay", "republican"], ["Nay", "democrat"]] [0] [] 2
      = Tree.node 0 "vote0"
          [("Yea", Tree.leaf "Democrats"), ("Nay", Tree.leaf "Democrats")] :=
  c3_single_feature_scenario 2 (by norm_num)

/-! ## C8: information gain

The nonnegativity of information gain is the one genuinely analytic fact:
it reduces, through the identity
`n * entropy * log 2 = Flog n - Flog r - Flog d` with `Flog x = x * log x`,
to superadditivity of `Flog` under splitting, which follows from the
two-term log-sum inequality, itself a consequence of `1 - x⁻¹ ≤ log x`. -/

/-- `x * log x` (natural logarithm), the convex potential behind entropy;
`Flog 0 = 0` holds because `Real.log 0 = 0`. -/
noncomputable def Flog (x : ℝ) : ℝ := x * Real.log x

/-- Two-term log-sum inequality (with the junk-value-friendly hypotheses
`a_i ≤ b_i`, which are what the entropy application provides). -/
theorem logsum2 (a1 a2 b1 b2 : ℝ) (ha1 : 0 ≤ a1) (ha2 : 0 ≤ a2)
    (h1 : a1 ≤ b1) (h2 : a2 ≤ b2) :
    (a1 + a2) * Real.log ((a1 + a2) / (b1 + b2))
      ≤ a1 * Real.log (a1 / b1) + a2 * Real.log (a2 / b2) := by
  by_cases hb1 : b1 = 0
  · have ha1' : a1 = 0 := le_antisymm (hb1 ▸ h1) ha1
    subst ha1'
    subst hb1
    simp
  by_cases hb2 : b2 = 0
  · have ha2' : a2 = 0 := le_antisymm (hb2 ▸ h2) ha2
    subst ha2'
    subst hb2
    simp
  have hb1' : 0 < b1 := lt_of_le_of_ne (ha1.trans h1) (Ne.symm hb1)
  have hb2' : 0 < b2 := lt_of_le_of_ne (ha2.trans h2) (Ne.symm hb2)
  by_cases ha10 : a1 = 0
  · subst ha10
    simp only [zero_add, zero_mul, zero_div]
    rcases eq_or_lt_of_le ha2 with h | h
    · rw [← h]
      simp
    · have hmono : a2 / (b1 + b2) ≤ a2 / b2 := by
        gcongr
        linarith
      have hpos : 0 < a2 / (b1 + b2) := by positivity
      have := Real.log_le_log hpos hmono
      nlinarith [this, h]
  by_cases ha20 : a2 = 0
  · subst ha20
    simp only [add_zero, zero_mul, zero_div]
    rcases eq_or_lt_of_le ha1 with h | h
    · rw [← h]
      simp
    · have hmono : a1 / (b1 + b2) ≤ a1 / b1 := by
        gcongr
        linarith
      have hpos : 0 < a1 / (b1 + b2) := by positivity
      have := Real.log_le_log hpos hmono
      nlinarith [this, h]
  have ha1' : 0 < a1 := lt_of_le_of_ne ha1 (Ne.symm ha10)
  have ha2' : 0 < a2 := lt_of_le_of_ne ha2 (Ne.symm ha20)
  have hA : 0 < a1 + a2 := by linarith
  have hB : 0 < b1 + b2 := by linarith
  have key : ∀ a b : ℝ, 0 < a → 0 < b →
      a - b * (a1 + a2) / (b1 + b2)
        ≤ a * (Real.log (a / b) - Real.log ((a1 + a2) / (b1 + b2))) := by
    intro a b ha hb
    have ht : 0 < (a / b) / ((a1 + a2) / (b1 + b2)) := by positivity
    have hlog := Real.one_sub_inv_le_log_of_pos ht
    have hsplit : Real.log ((a / b) / ((a1 + a2) / (b1 + b2)))
        = Real.log (a / b) - Real.log ((a1 + a2) / (b1 + b2)) :=
      Real.log_div (by positivity) (by positivity)
    have hinv : ((a / b) / ((a1 + a2) / (b1 + b2)))⁻¹
        = (b * (a1 + a2)) / (a * (b1 + b2)) := by
      field_simp
    rw [hsplit, hinv] at hlog
    have := mul_le_mul_of_nonneg_left hlog ha.le
    have hc : a * (1 - b * (a1 + a2) / (a * (b1 + b2)))
        = a - b * (a1 + a2) / (b1 + b2) := by
      field_simp
      ring
    linarith [hc ▸ this]
  have k1 := key a1 b1 ha1' hb1'
  have k2 := key a2 b2 ha2' hb2'
  have hsum : b1 * (a1 + a2) / (b1 + b2) + b2 * (a1 + a2) / (b1 + b2) = a1 + a2 := by
    field_simp
    ring
  nlinarith [k1, k2, hsum]

theorem mul_log_div_eq (x y : ℝ) (hx : 0 ≤ x) (hxy : x ≤ y) :
    x * Real.log (x / y) = Flog x - x * Real.log y := by
  rcases eq_or_lt_of_le hx with hx0 | hx0
  · rw [← hx0]
    simp [Flog]
  · have hy : 0 < y := lt_of_lt_of_le hx0 hxy
    rw [Real.log_div hx0.ne' hy.ne', Flog]
    ring

/-- Splitting superadditivity of `Flog`: the mixing entropy of a 2×2
contingency table is largest along the coarser of the two marginals. -/
theorem flog_superadd (a1 a2 b1 b2 : ℝ) (ha1 : 0 ≤ a1) (ha2 : 0 ≤ a2)
    (hb1 : 0 ≤ b1) (hb2 : 0 ≤ b2) :
    Flog (a1 + b1) + Flog (a2 + b2) + Flog (a1 + a2) + Flog (b1 + b2)
      ≤ Flog (a1 + a2 + b1 + b2) + Flog a1 + Flog a2 + Flog b1 + Flog b2 := by
  have app1 := logsum2 a1 a2 (a1 + b1) (a2 + b2) ha1 ha2 (by linarith) (by linarith)
  have app2 := logsum2 b1 b2 (a1 + b1) (a2 + b2) hb1 hb2 (by linarith) (by linarith)
  have e1 := mul_log_div_eq a1 (a1 + b1) ha1 (by linarith)
  have e2 := mul_log_div_eq a2 (a2 + b2) ha2 (by linarith)
  have e3 := mul_log_div_eq b1 (a1 + b1) hb1 (by linarith)
  have e4 := mul_log_div_eq b2 (a2 + b2) hb2 (by linarith)
  have e5 := mul_log_div_eq (a1 + a2) (a1 + b1 + (a2 + b2)) (by linarith) (by linarith)
  have e6 := mul_log_div_eq (b1 + b2) (a1 + b1 + (a2 + b2)) (by linarith) (by linarith)
  rw [e1, e2, e5] at app1
  rw [e3, e4, e6] at app2
  have hgoal : a1 + a2 + b1 + b2 = a1 + b1 + (a2 + b2) := by ring
  rw [hgoal]
  have hN : (a1 + a2) * Real.log (a1 + b1 + (a2 + b2))
      + (b1 + b2) * Real.log (a1 + b1 + (a2 + b2))
      = Flog (a1 + b1 + (a2 + b2)) := by
    show _ = (a1 + b1 + (a2 + b2)) * Real.log (a1 + b1 + (a2 + b2))
    ring
  have hN1 : a1 * Real.log (a1 + b1) + b1 * Real.log (a1 + b1) = Flog (a1 + b1) := by
    show _ = (a1 + b1) * Real.log (a1 + b1)
    ring
  have hN2 : a2 * Real.log (a2 + b2) + b2 * Real.log (a2 + b2) = Flog (a2 + b2) := by
    show _ = (a2 + b2) * Real.log (a2 + b2)
    ring
  linarith [app1, app2, hN, hN1, hN2]

/-- One guarded term of `entropy`, cleared of its denominators. -/
theorem entropy_term (X S : ℝ) (hX : 0 ≤ X) (hXS : X ≤ S) (hS : 0 < S) :
    (X / S) * (if X / S ≠ 0 then Real.logb 2 (X / S) else 0) * S * Real.log 2
      = Flog X - X * Real.log S := by
  rcases eq_or_lt_of_le hX with hX0 | hX0
  · rw [← hX0]
    simp [Flog]
  · have hne : X / S ≠ 0 := (div_pos hX0 hS).ne'
    rw [if_pos hne, Real.logb, Real.log_div hX0.ne' hS.ne', Flog]
    field_simp
    ring

/-- The entropy formula of the source, multiplied through by
`total * log 2`, in terms of `Flog`. -/
theorem entropyCounts_mul (r d : Nat) :
    ((r : ℝ) + d) * entropyCounts r d * Real.log 2
      = Flog ((r : ℝ) + d) - Flog r - Flog d := by
  have hec : entropyCounts r d
      = -((d : ℝ) / ((r : ℝ) + d))
          * (if (d : ℝ) / ((r : ℝ) + d) ≠ 0
              then Real.logb 2 ((d : ℝ) / ((r : ℝ) + d)) else 0)
        - ((r : ℝ) / ((r : ℝ) + d))
          * (if (r : ℝ) / ((r : ℝ) + d) ≠ 0
              then Real.logb 2 ((r : ℝ) / ((r : ℝ) + d)) else 0) := rfl
  by_cases hn : (r : ℝ) + d = 0
  · have hr0 : (r : ℝ) = 0 := by
      have := Nat.cast_nonneg (α := ℝ) r
      have := Nat.cast_nonneg (α := ℝ) d
      linarith
    have hd0 : (d : ℝ) = 0 := by
      have := Nat.cast_nonneg (α := ℝ) r
      linarith
    rw [hec, hr0, hd0]
    simp [Flog]
  · have hn' : 0 < (r : ℝ) + d := by
      have := Nat.cast_nonneg (α := ℝ) r
      have := Nat.cast_nonneg (α := ℝ) d
      rcases lt_or_eq_of_le (by linarith : (0 : ℝ) ≤ (r : ℝ) + d) with h | h
      · exact h
      · exact absurd h.symm hn
    have t_d := entropy_term d ((r : ℝ) + d) (Nat.cast_nonneg d)
      (by have := Nat.cast_nonneg (α := ℝ) r; linarith) hn'
    have t_r := entropy_term r ((r : ℝ) + d) (Nat.cast_nonneg r)
      (by have := Nat.cast_nonneg (α := ℝ) d; linarith) hn'
    rw [hec]
    simp only [Flog] at t_d t_r ⊢
    linear_combination (-1 : ℝ) * t_d - t_r

/-- The skipping loop of `information_gain` as a filtered sum. -/
theorem foldl_ig_sum (target : Nat) (parent : List Example) :
    ∀ (children : List (List Example)) (acc : ℝ),
    children.foldl (fun acc child => if child.length = 0 then acc
        else acc + (child.length : ℝ) / (parent.length : ℝ) * entropy target child) acc
      = acc + ((children.filter (fun c => !(c.length == 0))).map
          (fun c => (c.length : ℝ) / (parent.length : ℝ) * entropy target c)).sum := by
  intro children
  induction children with
  | nil =>
    intro acc
    simp
  | cons c cs ih =>
    intro acc
    by_cases h : c.length = 0
    · rw [List.foldl_cons, if_pos h, ih]
      have hf : (c :: cs).filter (fun c => !(c.length == 0))
          = cs.filter (fun c => !(c.length == 0)) := by
        simp [List.filter_cons, h]
      rw [hf]
    · rw [List.foldl_cons, if_neg h, ih]
      have hf : (c :: cs).filter (fun c => !(c.length == 0))
          = c :: cs.filter (fun c => !(c.length == 0)) := by
        simp [List.filter_cons, h]
      rw [hf, List.map_cons, List.sum_cons]
      ring

theorem information_gain_eq (target : Nat) (parent : List Example)
    (children : List (List Example)) :
    information_gain target parent children
      = entropy target parent
        - ((children.filter (fun c => !(c.length == 0))).map
            (fun c => (c.length : ℝ) / (parent.length : ℝ) * entropy target c)).sum := by
  show entropy target parent - _ = _
  rw [foldl_ig_sum target parent children 0, zero_add]

/-- On a two-partition list the skipped empty partitions contribute `0`,
so the gain is the plain weighted difference. -/
theorem information_gain_pair (target : Nat) (parent : List Example)
    (c0 c1 : List Example) :
    information_gain target parent [c0, c1]
      = entropy target parent
        - ((c0.length : ℝ) / (parent.length : ℝ) * entropy target c0
          + (c1.length : ℝ) / (parent.length : ℝ) * entropy target c1) := by
  rw [information_gain_eq]
  by_cases h0 : c0.length = 0 <;> by_cases h1 : c1.length = 0 <;>
    simp [List.filter_cons, h0, h1] <;> ring

set_option maxHeartbeats 1000000 in
theorem split_gain_nonneg (target attr : Nat) (parent : List Example)
    (hp : parent ≠ []) :
    0 ≤ information_gain target parent (split attr parent) := by
  have hsplit : split attr parent
      = [parent.filter (fun exs =>
            exs.getD attr "" == "Yea" || exs.getD attr "" == "Present"),
         parent.filter (fun exs =>
            !(exs.getD attr "" == "Yea" || exs.getD attr "" == "Present"))] := rfl
  rw [hsplit, information_gain_pair]
  have hr : repCount target (parent.filter (fun exs =>
        exs.getD attr "" == "Yea" || exs.getD attr "" == "Present"))
      + repCount target (parent.filter (fun exs =>
        !(exs.getD attr "" == "Yea" || exs.getD attr "" == "Present")))
      = repCount target parent :=
    length_filter_partition parent _ _
  have hd : demCount target (parent.filter (fun exs =>
        exs.getD attr "" == "Yea" || exs.getD attr "" == "Present"))
      + demCount target (parent.filter (fun exs =>
        !(exs.getD attr "" == "Yea" || exs.getD attr "" == "Present")))
      = demCount target parent :=
    length_filter_partition parent _ _
  set yes := parent.filter (fun exs =>
    exs.getD attr "" == "Yea" || exs.getD attr "" == "Present") with hyes
  set no := parent.filter (fun exs =>
    !(exs.getD attr "" == "Yea" || exs.getD attr "" == "Present")) with hno
  have hylen : repCount target yes + demCount target yes = yes.length :=
    length_filter_add_length_filter_not yes _
  have hnlen : repCount target no + demCount target no = no.length :=
    length_filter_add_length_filter_not no _
  have hplen : repCount target parent + demCount target parent = parent.length :=
    length_filter_add_length_filter_not parent _
  have hppos : 0 < parent.length := List.length_pos.2 hp
  rw [show entropy target parent
      = entropyCounts (repCount target parent) (demCount target parent) from rfl]
  rw [show entropy target yes
      = entropyCounts (repCount target yes) (demCount target yes) from rfl]
  rw [show entropy target no
      = entropyCounts (repCount target no) (demCount target no) from rfl]
  have m_p := entropyCounts_mul (repCount target parent) (demCount target parent)
  have m_y := entropyCounts_mul (repCount target yes) (demCount target yes)
  have m_n := entropyCounts_mul (repCount target no) (demCount target no)
  have sup := flog_superadd (repCount target yes : ℝ) (repCount target no : ℝ)
    (demCount target yes : ℝ) (demCount target no : ℝ)
    (by positivity) (by positivity) (by positivity) (by positivity)
  have hrR : (repCount target parent : ℝ)
      = (repCount target yes : ℝ) + (repCount target no : ℝ) := by
    exact_mod_cast hr.symm
  have hdR : (demCount target parent : ℝ)
      = (demCount target yes : ℝ) + (demCount target no : ℝ) := by
    exact_mod_cast hd.symm
  have hyR : (yes.length : ℝ)
      = (repCount target yes : ℝ) + (demCount target yes : ℝ) := by
    exact_mod_cast hylen.symm
  have hnR : (no.length : ℝ)
      = (repCount target no : ℝ) + (demCount target no : ℝ) := by
    exact_mod_cast hnlen.symm
  have hpR : (parent.length : ℝ)
      = (repCount target parent : ℝ) + (demCount target parent : ℝ) := by
    exact_mod_cast hplen.symm
  have hassoc : (repCount target yes : ℝ) + (repCount target no : ℝ)
      + (demCount target yes : ℝ) + (demCount target no : ℝ)
      = ((repCount target yes : ℝ) + (repCount target no : ℝ))
        + ((demCount target yes : ℝ) + (demCount target no : ℝ)) := by ring
  rw [hassoc] at sup
  rw [hrR, hdR] at m_p
  have hlog2 : 0 < Real.log 2 := Real.log_pos (by norm_num)
  have hnpR : (0 : ℝ) < (parent.length : ℝ) := by exact_mod_cast hppos
  have key : ((yes.length : ℝ)
        * entropyCounts (repCount target yes) (demCount target yes)) * Real.log 2
      + ((no.length : ℝ)
        * entropyCounts (repCount target no) (demCount target no)) * Real.log 2
      ≤ ((parent.length : ℝ)
        * entropyCounts (repCount target parent) (demCount target parent))
          * Real.log 2 := by
    rw [hyR, hnR, hpR, hrR, hdR]
    nlinarith [m_p, m_y, m_n, sup]
  have expand : (entropyCounts (repCount target parent) (demCount target parent)
      - ((yes.length : ℝ) / (parent.length : ℝ)
          * entropyCounts (repCount target yes) (demCount target yes)
        + (no.length : ℝ) / (parent.length : ℝ)
          * entropyCounts (repCount target no) (demCount target no)))
      * ((parent.length : ℝ) * Real.log 2)
      = ((parent.length : ℝ)
          * entropyCounts (repCount target parent) (demCount target parent))
            * Real.log 2
        - ((yes.length : ℝ)
          * entropyCounts (repCount target yes) (demCount target yes)) * Real.log 2
        - ((no.length : ℝ)
          * entropyCounts (repCount target no) (demCount target no)) * Real.log 2 := by
    field_simp
    ring
  have hprod : 0 ≤ (entropyCounts (repCount target parent) (demCount target parent)
      - ((yes.length : ℝ) / (parent.length : ℝ)
          * entropyCounts (repCount target yes) (demCount target yes)
        + (no.length : ℝ) / (parent.length : ℝ)
          * entropyCounts (repCount target no) (demCount target no)))
      * ((parent.length : ℝ) * Real.log 2) := by
    rw [expand]
    linarith [key]
  have hpos : (0 : ℝ) < (parent.length : ℝ) * Real.log 2 := by positivity
  nlinarith [hprod, hpos]

/-- C8: `information_gain(parent, partitions)` equals `entropy(parent)`
minus the sum of `|partition|/|parent| * entropy(partition)` over the
non-empty partitions (empty ones are skipped and contribute `0`), and for
every attribute and every non-empty parent set,
`information_gain(parent, split(attribute, parent))` is nonnegative. -/
theorem c8_information_gain (target attr : Nat) (parent : List Example)
    (hp : parent ≠ []) :
    (∀ children, information_gain target parent children
      = entropy target parent
        - ((children.filter (fun c => !(c.length == 0))).map
            (fun c => (c.length : ℝ) / (parent.length : ℝ) * entropy target c)).sum) ∧
    0 ≤ information_gain target parent (split attr parent) :=
  ⟨fun children => information_gain_eq target parent children,
   split_gain_nonneg target attr parent hp⟩

theorem c8_information_gain_witness :
    0 ≤ information_gain 1 [["Yea", "republican"]] (split 0 [["Yea", "republican"]]) :=
  (c8_information_gain 1 0 [["Yea", "republican"]] (by decide)).2

end DecisionTree
